import Mathlib

/-!
Shallow embedding of the precious-metals pricing pipeline (`src/app.py`).

Modelling conventions:
* pandas cell values are `Cell` (missing `na`, text, or numeric); rationals `ℚ`
  stand for Python floats (the spec treats prices as exact decimals);
* timestamps are integers counting minutes, a day being 1440 minutes, so that
  `pd.Timestamp.today().normalize()` is truncation to a multiple of 1440;
* `pd.isna` on an `Option` value is `Option.isNone`; `fillna v` is `Option.getD v`;
* Python `str.replace(pat, rep)` (all occurrences, leftmost first, non-
  overlapping) is embedded by dedicated structural functions on `List Char`
  for the literal patterns the program uses.
-/

namespace App

/-- A pandas cell: missing (`NaN`/`NaT`), a text value, or a numeric value. -/
inductive Cell where
  | na : Cell
  | str : String → Cell
  | num : ℚ → Cell
deriving DecidableEq, Repr

/-- Python `str(x)` on a cell: `str(nan) = "nan"`, strings unchanged,
numbers rendered by their numeral. -/
def pyStr : Cell → String
  | Cell.na => "nan"
  | Cell.str s => s
  | Cell.num q => toString q

/-- Is the cell a text value? -/
def cellIsStr : Cell → Bool
  | Cell.str _ => true
  | _ => false

/-- ASCII whitespace recognised by `str.strip()`. -/
def isWs (c : Char) : Bool :=
  c == ' ' || c == '\t' || c == '\n' || c == '\r'

/-- Python `str.strip()`: drop leading and trailing whitespace. -/
def stripWs (l : List Char) : List Char :=
  ((l.dropWhile isWs).reverse.dropWhile isWs).reverse

/-- Python `str.strip()` on a `String`. -/
def pyStrip (s : String) : String := String.mk (stripWs s.data)

/-- Python `str.replace(c, "")` for a single-character pattern `c`:
delete every occurrence of the character. -/
def removeChar (x : Char) : List Char → List Char
  | [] => []
  | c :: rest => if c = x then removeChar x rest else c :: removeChar x rest

/-- Embeds `str.replace("SS", "S/S")` (line 165 of `app.py`): leftmost,
non-overlapping replacement of the two-character pattern. -/
def replaceSS : List Char → List Char
  | 'S' :: 'S' :: rest => 'S' :: '/' :: 'S' :: replaceSS rest
  | c :: rest => c :: replaceSS rest
  | [] => []

/-- Embeds `str.replace("Ã‚", "")` (final replace of the sanitizer): leftmost,
non-overlapping removal of the two-character pattern `['Ã', '‚']`. -/
def removePairA : List Char → List Char
  | [] => []
  | [c] => [c]
  | c1 :: c2 :: rest =>
    if c1 = 'Ã' ∧ c2 = '‚' then removePairA rest
    else c1 :: removePairA (c2 :: rest)

/-- The four single mojibake characters removed by the sanitizer. -/
def badChars : List Char := ['‚', 'ƒ', 'Ã', 'Â']

/-- The five denylisted mojibake substrings of the sanitizer
(lines 214-215 of `app.py`), as character sequences. -/
def badPats : List (List Char) := [['‚'], ['ƒ'], ['Ã'], ['Â'], ['Ã', '‚']]

/-- Pattern `pat` occurs as a contiguous substring of `s`. -/
def occursIn (pat s : List Char) : Prop := ∃ a b, s = a ++ pat ++ b

/-- The sanitizer's chain of replacements
`.replace('‚','').replace('ƒ','').replace('Ã','').replace('Â','').replace('Ã‚','')`. -/
def sanitizeChars (s : List Char) : List Char :=
  removePairA (removeChar 'Â' (removeChar 'Ã' (removeChar 'ƒ' (removeChar '‚' s))))

/-- Sanitize the text of a string. -/
def sanitizeStr (s : String) : String := String.mk (sanitizeChars s.data)

/-- One step of the output-sanitizing loop (lines 214-216 of `app.py`):
`str(x)` with the five sequences removed when `pd.notna(x)`, else `x` itself. -/
def sanitizeCell : Cell → Cell
  | Cell.na => Cell.na
  | c => Cell.str (sanitizeStr (pyStr c))

/-! ### Multiplier tables (`gold_table`, `silver_table`) -/

/-- Embeds `gold_table` (lines 39-44 of `app.py`): the divisor constants are called
`multipliers` in the source, the multiplier constants `factors`; each
breakpoint is `gold_market / divisor`, paired positionally. -/
def gold_table (gold_market : ℚ) : List (ℚ × ℚ) :=
  let multipliers : List ℚ := [2.1, 1.7, 1.5, 1.35, 1.25, 1.175, 1.1, 1.0683, 1]
  let factors : List ℚ := [2, 1.8, 1.6, 1.4, 1.3, 1.2, 1.1, 1.05, 1]
  List.zip (multipliers.map (fun m => gold_market / m)) factors

/-- Embeds `silver_table` (lines 46-51 of `app.py`). -/
def silver_table (silver_market : ℚ) : List (ℚ × ℚ) :=
  let multipliers_s : List ℚ := [2.2, 1.5573, 1.4615, 1.3571, 1.3073, 1.2025, 1.1176, 1.0555, 1]
  let factors_s : List ℚ := [2, 1.6, 1.5, 1.4, 1.3, 1.2, 1.1, 1.05, 1]
  List.zip (multipliers_s.map (fun m => silver_market / m)) factors_s

/-- Ascending order on table rows by breakpoint (`sort_values('Gold Market')`). -/
def bpLe (a b : ℚ × ℚ) : Prop := a.1 ≤ b.1

instance : DecidableRel bpLe := fun a b => inferInstanceAs (Decidable (a.1 ≤ b.1))

instance : IsTotal (ℚ × ℚ) bpLe := ⟨fun a b => le_total a.1 b.1⟩

instance : IsTrans (ℚ × ℚ) bpLe := ⟨fun _ _ _ h1 h2 => le_trans h1 h2⟩

/-- Strict ascending order on table rows by breakpoint. -/
def bpLt (a b : ℚ × ℚ) : Prop := a.1 < b.1

instance : IsTrans (ℚ × ℚ) bpLt := ⟨fun _ _ _ h1 h2 => lt_trans h1 h2⟩

/-- Embeds `factor.sort_values('Gold Market')` (lines 55-56 of `app.py`). -/
def sortTable (t : List (ℚ × ℚ)) : List (ℚ × ℚ) := List.insertionSort bpLe t

/-- Embeds `find_multiplier_above` (lines 58-65 of `app.py`): on a missing value
return missing; otherwise keep the rows whose breakpoint strictly exceeds the
value, returning the first one's multiplier, or the last row's multiplier when
none exceeds it. -/
def find_multiplier_above (value : Option ℚ) (factor : List (ℚ × ℚ)) : Option ℚ :=
  match value with
  | none => none
  | some v =>
    let valid := factor.filter (fun p => decide (v < p.1))
    if valid.isEmpty then factor.getLast?.map Prod.snd
    else valid.head?.map Prod.snd

/-- Embeds `lookup_multiplier_by_metal` (lines 67-77 of `app.py`): missing market
value or metal gives missing; metal `"S/S"` routes to the sorted silver table,
anything else to the sorted gold table. -/
def lookup_multiplier_by_metal (gold_factor silver_factor : List (ℚ × ℚ))
    (market : Option ℚ) (metal : Option String) : Option ℚ :=
  match market, metal with
  | some v, some m =>
    if m = "S/S" then find_multiplier_above (some v) (sortTable silver_factor)
    else find_multiplier_above (some v) (sortTable gold_factor)
  | _, _ => none

/-- The spec's own description of the resolver, for the refinement comparison:
the multiplier of the first entry (in the table's order) whose breakpoint is
strictly greater than the query value, or the last entry's multiplier when no
breakpoint exceeds it. -/
def multiplierSpec (v : ℚ) (t : List (ℚ × ℚ)) : Option ℚ :=
  match t.find? (fun p => decide (v < p.1)) with
  | some p => some p.2
  | none => t.getLast?.map Prod.snd

/-! ### Numeric parsing and rounding -/

/-- Digit test used by the numeric parser. -/
def allDigits (l : List Char) : Bool := l.all Char.isDigit

/-- Value of a digit string. -/
def natOfDigits (l : List Char) : ℕ := l.foldl (fun n c => 10 * n + (c.toNat - 48)) 0

/-- Split a character list at the first dot, if any. -/
def splitAtDot : List Char → List Char × Option (List Char)
  | [] => ([], none)
  | c :: rest =>
    if c = '.' then ([], some rest)
    else
      let p := splitAtDot rest
      (c :: p.1, p.2)

/-- Models `pd.to_numeric(·, errors="coerce")` on a text cell for plain decimal
literals (optional sign, digits, optional fractional part); anything else
coerces to missing. -/
def parseNum (s : String) : Option ℚ :=
  let l := stripWs s.data
  let sb : ℚ × List Char :=
    match l with
    | c :: rest => if c = '-' then (-1, rest) else (1, l)
    | [] => (1, [])
  match splitAtDot sb.2 with
  | (a, none) =>
    if a ≠ [] ∧ allDigits a then some (sb.1 * natOfDigits a) else none
  | (a, some b) =>
    if (a ≠ [] ∨ b ≠ []) ∧ allDigits a ∧ allDigits b then
      some (sb.1 * ((natOfDigits a : ℚ) + (natOfDigits b : ℚ) / (10 : ℚ) ^ b.length))
    else none

/-- Embeds `pd.to_numeric(·, errors="coerce")` on a cell. -/
def toNumeric : Cell → Option ℚ
  | Cell.na => none
  | Cell.num q => some q
  | Cell.str s => parseNum s

/-- Round to the nearest integer, ties to even (numpy/pandas rounding). -/
def roundHalfEven (x : ℚ) : ℤ :=
  let f := ⌊x⌋
  let r := x - f
  if r < 1 / 2 then f
  else if 1 / 2 < r then f + 1
  else if f % 2 = 0 then f else f + 1

/-- Embeds `.round(2)`: round to two decimal places, ties to even. -/
def round2 (x : ℚ) : ℚ := (roundHalfEven (x * 100) : ℚ) / 100

/-! ### Reference normalization (`process_precious_metals_data`, lines 139-191) -/

/-- A raw reference row after the three `pd.to_datetime(·, errors="coerce")`
calls and typed reading of the numeric columns: timestamps are minutes,
`goldMarket` is the value of the cleaned-and-parsed `Gold Market` cell
(lines 169-174), `pricePerUnit` the coerced `Price Per Unit` (line 178). -/
structure RefRowIn where
  stockId : Option String
  metal : Option String
  pricePerUnit : Option ℚ
  goldMarket : Option ℚ
  dateCreated : Option ℤ
  dateLastPriceChange : Option ℤ
  lastStocked : Option ℤ
deriving DecidableEq, Repr

/-- Row-wise maximum of optional timestamps, missing values ignored
(`DataFrame.max(axis=1)` skips `NaT`). -/
def omax : Option ℤ → Option ℤ → Option ℤ
  | none, b => b
  | some a, none => some a
  | some a, some b => some (max a b)

/-- The derived `Max Date` column (lines 143-145 of `app.py`). -/
def maxDate3 (r : RefRowIn) : Option ℤ :=
  omax (omax r.dateCreated r.dateLastPriceChange) r.lastStocked

/-- Descending order on optional dates with missing values last
(`sort_values(by="Max Date", ascending=False)`, `na_position` defaulting
to last). -/
def dateDescLe : Option ℤ → Option ℤ → Prop
  | some x, some y => y ≤ x
  | some _, none => True
  | none, some _ => False
  | none, none => True

instance : DecidableRel dateDescLe := fun a b =>
  match a, b with
  | some x, some y => inferInstanceAs (Decidable (y ≤ x))
  | some _, none => inferInstanceAs (Decidable True)
  | none, some _ => inferInstanceAs (Decidable False)
  | none, none => inferInstanceAs (Decidable True)

/-- Sort order on (row, Max Date) pairs. -/
def rowLe (a b : RefRowIn × Option ℤ) : Prop := dateDescLe a.2 b.2

instance : DecidableRel rowLe := fun a b => inferInstanceAs (Decidable (dateDescLe a.2 b.2))

instance : IsTotal (RefRowIn × Option ℤ) rowLe :=
  ⟨fun a b => by
    unfold rowLe
    cases a.2 with
    | none => cases b.2 with
      | none => exact Or.inl trivial
      | some y => exact Or.inr trivial
    | some x => cases b.2 with
      | none => exact Or.inl trivial
      | some y => exact (le_total y x).imp id id⟩

instance : IsTrans (RefRowIn × Option ℤ) rowLe :=
  ⟨fun a b c h1 h2 => by
    obtain ⟨a1, a2⟩ := a; obtain ⟨b1, b2⟩ := b; obtain ⟨c1, c2⟩ := c
    cases a2 <;> cases b2 <;> cases c2
    all_goals simp only [rowLe, dateDescLe] at *
    all_goals first | trivial | exact le_trans h2 h1⟩

/-- Minutes in a day: timestamps are minute counts. -/
def minutesPerDay : ℤ := 1440

/-- Embeds `pd.Timestamp.today().normalize()` (line 159 of `app.py`): truncate the
current timestamp down to midnight of its day. -/
def normalizeTs (t : ℤ) : ℤ := minutesPerDay * Int.ediv t minutesPerDay

/-- Embeds `Max Date <= today` on an optional date: missing never compares true
(pandas `NaT <= t` is `False`). -/
def dateLeB (d : Option ℤ) (today : ℤ) : Bool :=
  match d with
  | none => false
  | some x => decide (x ≤ today)

/-- The `Stock ID` normalization (line 163 of `app.py`):
`fillna("").astype(str).str.replace(" ", "", regex=False)`. -/
def normStockId (s : Option String) : String :=
  String.mk (removeChar ' ' (s.getD "").data)

/-- The `Metal` normalization (lines 164-165 of `app.py`): fill missing with `""`,
remove spaces, then replace `"SS"` by `"S/S"`. -/
def normMetal (s : Option String) : String :=
  String.mk (replaceSS (removeChar ' ' (s.getD "").data))

/-- A reference row after the cleaning of `Stock ID` and `Metal`
(lines 163-165); the three source-date columns are dropped (line 156),
`Max Date` is kept. -/
structure RefRowMid where
  stockId : String
  metal : String
  pricePerUnit : Option ℚ
  goldMarket : Option ℚ
  maxDate : Option ℤ
deriving DecidableEq, Repr

/-- Embeds `drop_duplicates(subset=["Stock ID"])` (line 166 of `app.py`): keep the
first row for each key not seen before. -/
def dropDupByKey {α : Type} (key : α → String) : List α → List String → List α
  | [], _ => []
  | x :: xs, seen =>
    if key x ∈ seen then dropDupByKey key xs seen
    else x :: dropDupByKey key xs (key x :: seen)

/-- Lines 143-147: compute `Max Date` and sort descending by it. -/
def refSorted (rows : List RefRowIn) : List (RefRowIn × Option ℤ) :=
  List.insertionSort rowLe (rows.map (fun r => (r, maxDate3 r)))

/-- Line 160 with an explicitly supplied (already normalized) date. -/
def refFilteredAt (rows : List RefRowIn) (todayN : ℤ) : List (RefRowIn × Option ℤ) :=
  (refSorted rows).filter (fun p => dateLeB p.2 todayN)

/-- Lines 159-160: `today = pd.Timestamp.today().normalize()` then keep rows
with `Max Date <= today`; `now` is the processing moment. -/
def refFiltered (rows : List RefRowIn) (now : ℤ) : List (RefRowIn × Option ℤ) :=
  refFilteredAt rows (normalizeTs now)

/-- Lines 163-165: normalize `Stock ID` and `Metal` on the filtered rows. -/
def refCleanedAt (rows : List RefRowIn) (todayN : ℤ) : List RefRowMid :=
  (refFilteredAt rows todayN).map (fun p =>
    { stockId := normStockId p.1.stockId
      metal := normMetal p.1.metal
      pricePerUnit := p.1.pricePerUnit
      goldMarket := p.1.goldMarket
      maxDate := p.2 })

/-- Line 166: deduplicate by `Stock ID`, keeping the first occurrence. -/
def refDedupedAt (rows : List RefRowIn) (todayN : ℤ) : List RefRowMid :=
  dropDupByKey (fun r => r.stockId) (refCleanedAt rows todayN) []

/-- A reference row after multiplier resolution and pricing
(lines 177-191 of `app.py`): `pricePerUnit` is `fillna(0)`-ed, `multiplier`
is the resolver's output (line 186, before the `fillna(1.0)` of line 189),
and `newPrice` is the rounded product of line 190-191. -/
structure RefRowPriced where
  stockId : String
  metal : String
  pricePerUnit : ℚ
  goldMarket : Option ℚ
  maxDate : Option ℤ
  multiplier : Option ℚ
  newPrice : ℚ
deriving DecidableEq, Repr

/-- Price one normalized row: resolve the multiplier (the `Metal` column is a
string after line 164, so the row-level `pd.isna(metal_type)` test is false),
treat a missing multiplier as `1.0` (line 189), multiply and round (190-191). -/
def priceRow (gold_factor silver_factor : List (ℚ × ℚ)) (r : RefRowMid) : RefRowPriced :=
  let ppu := r.pricePerUnit.getD 0
  let m := lookup_multiplier_by_metal gold_factor silver_factor r.goldMarket (some r.metal)
  { stockId := r.stockId
    metal := r.metal
    pricePerUnit := ppu
    goldMarket := r.goldMarket
    maxDate := r.maxDate
    multiplier := m
    newPrice := round2 (ppu * m.getD 1) }

/-- Reference processing (lines 139-191) with an explicit normalized date. -/
def processReferenceAt (rows : List RefRowIn) (goldP silverP : ℚ) (todayN : ℤ) :
    List RefRowPriced :=
  (refDedupedAt rows todayN).map (priceRow (gold_table goldP) (silver_table silverP))

/-- Reference processing with the processing moment `now`: the code only uses
`now` through `pd.Timestamp.today().normalize()`. -/
def processReference (rows : List RefRowIn) (goldP silverP : ℚ) (now : ℤ) :
    List RefRowPriced :=
  processReferenceAt rows goldP silverP (normalizeTs now)

/-! ### SKU propagation (`update_variant_price_fixed`, lines 82-126) -/

/-- A product row as the propagator receives it: `Variant SKU` is a raw cell,
`Variant Price` has already been coerced to numeric (lines 194-197), and the
remaining fields of the row are carried in `extra`. -/
structure ProdRowN where
  variantSKU : Cell
  variantPrice : Option ℚ
  extra : List Cell
deriving DecidableEq, Repr

/-- A product row after the propagator: `Variant SKU` has been stringified,
stripped, and `'nan'`-cleared (lines 87 and 92). -/
structure ProdRowOut where
  variantSKU : String
  variantPrice : Option ℚ
  extra : List Cell
deriving DecidableEq, Repr

/-- The reference rows the propagator consumes: `Stock ID` and `New Price`. -/
structure PropRefRow where
  stockId : String
  newPrice : Option ℚ
deriving DecidableEq, Repr

/-- The `Variant SKU` normalization of the propagator (lines 87 and 92):
`astype(str).str.strip()`, then the literal value `'nan'` becomes `''`. -/
def normSku (c : Cell) : String :=
  let s := pyStrip (pyStr c)
  if s = "nan" then "" else s

/-- The `Stock ID` normalization of the propagator (lines 89 and 93). -/
def propNormId (s : String) : String :=
  let t := pyStrip s
  if t = "nan" then "" else t

/-- Python dict assignment `d[k] = v`: overwrite an existing binding, else
append a new one. -/
def dictInsert (d : List (String × ℚ)) (k : String) (v : ℚ) : List (String × ℚ) :=
  if d.any (fun kv => kv.1 == k) then d.map (fun kv => if kv.1 == k then (k, v) else kv)
  else d ++ [(k, v)]

/-- Python dict lookup. -/
def dictGet? (d : List (String × ℚ)) (k : String) : Option ℚ :=
  (d.find? (fun kv => kv.1 == k)).map Prod.snd

/-- The `price_lookup` dictionary (lines 96-103 of `app.py`): one binding per
reference row whose cleaned `Stock ID` is non-empty and whose `New Price` is
non-missing (`pd.isna(stock_id)` is false on a string, and the
`str(stock_id) != 'nan'` test is kept literally even though the `'nan'`
clearing of line 93 already makes it redundant). -/
def buildPriceLookup (reference : List PropRefRow) : List (String × ℚ) :=
  reference.foldl
    (fun acc r =>
      let sid := propNormId r.stockId
      match r.newPrice with
      | some p => if sid ≠ "" ∧ sid ≠ "nan" then dictInsert acc sid p else acc
      | none => acc)
    []

/-- The per-row update loop (lines 111-124 of `app.py`), returning the updated
rows and the `(successful, blank, no_match)` counters. A looked-up price is
always non-missing because `price_lookup` only holds non-missing prices, so
the loop's inner `pd.isna(new_price)` test is false. -/
def applyPriceUpdates (lookupD : List (String × ℚ)) :
    List ProdRowN → List ProdRowOut × ℕ × ℕ × ℕ
  | [] => ([], 0, 0, 0)
  | r :: rs =>
    let res := applyPriceUpdates lookupD rs
    let sku := normSku r.variantSKU
    if sku = "" then
      (⟨sku, r.variantPrice, r.extra⟩ :: res.1, res.2.1, res.2.2.1 + 1, res.2.2.2)
    else
      match dictGet? lookupD sku with
      | some p => (⟨sku, some p, r.extra⟩ :: res.1, res.2.1 + 1, res.2.2.1, res.2.2.2)
      | none => (⟨sku, r.variantPrice, r.extra⟩ :: res.1, res.2.1, res.2.2.1, res.2.2.2 + 1)

/-- Embeds `update_variant_price_fixed` (lines 82-126 of `app.py`). -/
def update_variant_price_fixed (upload : List ProdRowN) (reference : List PropRefRow) :
    List ProdRowOut × ℕ × ℕ × ℕ :=
  applyPriceUpdates (buildPriceLookup reference) upload

/-! ### Final rounding, sanitization and statistics (lines 194-232) -/

/-- A raw product row: both `Variant SKU` and `Variant Price` are cells. -/
structure ProdRowIn where
  variantSKU : Cell
  variantPrice : Cell
  extra : List Cell
deriving DecidableEq, Repr

/-- A product table: its rows together with, for each `extra` column, whether
pandas assigned it the `object` (text) dtype — only those columns are touched
by the sanitizing loop of lines 212-216. -/
structure ProdTableIn where
  rows : List ProdRowIn
  extraObj : List Bool
deriving DecidableEq, Repr

/-- A product row of the final output table. -/
structure ProdRowFinal where
  variantSKU : String
  variantPrice : Option ℚ
  extra : List Cell
deriving DecidableEq, Repr

/-- The statistics record returned by the pipeline (lines 226-232). -/
structure Stats where
  successful_updates : ℕ
  skipped_blank_sku : ℕ
  skipped_no_match : ℕ
  total_rows : ℕ
  reference_rows : ℕ
deriving DecidableEq, Repr

/-- Line 197: coerce `Variant Price` to numeric. -/
def prepProdRow (r : ProdRowIn) : ProdRowN :=
  { variantSKU := r.variantSKU
    variantPrice := toNumeric r.variantPrice
    extra := r.extra }

/-- The sanitizing loop of lines 212-216, per row: each cell of a column whose
dtype is `object` goes through `sanitizeCell`; other columns are untouched.
(The extra `Body (HTML)` pass of lines 219-224 repeats the same five removals
and is a no-op on the already-sanitized column.) -/
def applyFlags : List Bool → List Cell → List Cell
  | f :: fs, c :: cs => (if f then sanitizeCell c else c) :: applyFlags fs cs
  | [], cs => cs
  | _ :: _, [] => []

/-- Lines 207-216 applied to one propagated row: `Variant Price` is rounded to
two decimals (`to_numeric` on an already-numeric column is the identity), the
`Variant SKU` column (strings, hence `object` dtype) is sanitized, and the
`object`-flagged extra columns are sanitized. -/
def finalizeRow (flags : List Bool) (r : ProdRowOut) : ProdRowFinal :=
  { variantSKU := sanitizeStr r.variantSKU
    variantPrice := r.variantPrice.map round2
    extra := applyFlags flags r.extra }

/-- Embeds `process_precious_metals_data` (lines 128-232) with an explicit normalized
date: normalize and price the reference, coerce the product columns, propagate
prices by SKU, round, sanitize, and report statistics. -/
def processAt (refRows : List RefRowIn) (upload : ProdTableIn) (goldP silverP : ℚ)
    (todayN : ℤ) : List ProdRowFinal × Stats :=
  let reference := processReferenceAt refRows goldP silverP todayN
  let uploadN := upload.rows.map prepProdRow
  let refProp := reference.map (fun r => PropRefRow.mk r.stockId (some r.newPrice))
  let res := update_variant_price_fixed uploadN refProp
  let finalRows := res.1.map (finalizeRow upload.extraObj)
  (finalRows,
   { successful_updates := res.2.1
     skipped_blank_sku := res.2.2.1
     skipped_no_match := res.2.2.2
     total_rows := finalRows.length
     reference_rows := reference.length })

/-- The whole pipeline as invoked at processing moment `now`; the current time
enters only through `pd.Timestamp.today().normalize()` (line 159). -/
def process_precious_metals_data (refRows : List RefRowIn) (upload : ProdTableIn)
    (goldP silverP : ℚ) (now : ℤ) : List ProdRowFinal × Stats :=
  processAt refRows upload goldP silverP (normalizeTs now)

/-! ### Concrete sample data used to instantiate the theorems -/

/-- A reference row whose `Max Date` falls at minute 500 of day 0 (08:20). -/
def c3row : RefRowIn :=
  { stockId := some "A", metal := some "", pricePerUnit := some 10,
    goldMarket := some 0, dateCreated := some 500,
    dateLastPriceChange := none, lastStocked := none }

/-- Reference row with the more recent `Max Date` (midnight of day 2). -/
def c4rowNew : RefRowIn :=
  { stockId := some "A", metal := some "", pricePerUnit := some 10,
    goldMarket := some 0, dateCreated := some 2880,
    dateLastPriceChange := none, lastStocked := none }

/-- Reference row sharing the `Stock ID` of `c4rowNew` but one day older. -/
def c4rowOld : RefRowIn :=
  { stockId := some "A", metal := some "", pricePerUnit := some 7,
    goldMarket := some 0, dateCreated := some 1440,
    dateLastPriceChange := none, lastStocked := none }

/-- Two reference rows sharing a `Stock ID`. -/
def c4rows : List RefRowIn := [c4rowNew, c4rowOld]

/-- One-row reference table dated at midnight of day 1. -/
def c6rows : List RefRowIn :=
  [{ stockId := some "A", metal := some "", pricePerUnit := some 10,
     goldMarket := some 0, dateCreated := some 1440,
     dateLastPriceChange := none, lastStocked := none }]

/-- One-row product table with a SKU matching nothing. -/
def c6upload : ProdTableIn :=
  { rows := [{ variantSKU := Cell.str "Z", variantPrice := Cell.num 5, extra := [] }],
    extraObj := [] }

/-- A product row whose `Variant SKU` carries surrounding blanks. -/
def c7uploadRow : ProdRowN :=
  { variantSKU := Cell.str " A ", variantPrice := some 1, extra := [Cell.str "k"] }

/-- A product table whose text cells carry mojibake characters. -/
def c8upload : ProdTableIn :=
  { rows := [{ variantSKU := Cell.str "AÃB", variantPrice := Cell.na,
               extra := [Cell.str "xÂy"] }],
    extraObj := [true] }

/-- One-row reference table dated at midnight of day 10. -/
def c9ref : List RefRowIn :=
  [{ stockId := some "A", metal := some "", pricePerUnit := some 10,
     goldMarket := some 0, dateCreated := some 14400,
     dateLastPriceChange := none, lastStocked := none }]

/-- One-row product table whose SKU matches the `c9ref` stock item. -/
def c9upload : ProdTableIn :=
  { rows := [{ variantSKU := Cell.str "A", variantPrice := Cell.num 5, extra := [] }],
    extraObj := [] }

/-! ## Helper lemmas -/

theorem filter_head?_eq_find? {α : Type} (p : α → Bool) :
    ∀ l : List α, (l.filter p).head? = l.find? p := by
  intro l
  induction l with
  | nil => rfl
  | cons a t ih => by_cases h : p a <;> simp [List.filter_cons, List.find?_cons, h, ih]

theorem find_above_eq_spec (v : ℚ) (t : List (ℚ × ℚ)) :
    find_multiplier_above (some v) t = multiplierSpec v t := by
  unfold find_multiplier_above multiplierSpec
  have hh := filter_head?_eq_find? (fun p : ℚ × ℚ => decide (v < p.1)) t
  cases hf : t.find? (fun p : ℚ × ℚ => decide (v < p.1)) with
  | none =>
    have hemp : t.filter (fun p : ℚ × ℚ => decide (v < p.1)) = [] := by
      rw [← List.head?_eq_none_iff, hh, hf]
    simp [hemp]
  | some pr =>
    have hne : (t.filter (fun p : ℚ × ℚ => decide (v < p.1))).head? = some pr := by
      rw [hh, hf]
    have : ¬ (t.filter (fun p : ℚ × ℚ => decide (v < p.1))).isEmpty = true := by
      intro hx
      rw [List.isEmpty_iff] at hx
      rw [hx] at hne
      exact Option.noConfusion hne
    simp only [this, if_false]
    simp [hne]

/-! ## C1: multiplier resolution -/

/-- C1. Multiplier resolution: for every normalized reference row, a missing
`Gold Market` value or a missing `Metal` resolves to a missing multiplier;
otherwise the metal `"S/S"` (and only that literal value — every other metal,
the empty string included, routes to gold) selects the silver table, and
the result is the multiplier of the first entry of the ascending-sorted table
whose breakpoint strictly exceeds the row's market value, or the last
(highest-breakpoint) entry's multiplier when no breakpoint exceeds it; the
sorted table is indeed ascending. -/
theorem C1_multiplier_resolution (g s : ℚ) (market : Option ℚ) (metal : Option String) :
    (market = none ∨ metal = none →
      lookup_multiplier_by_metal (gold_table g) (silver_table s) market metal = none) ∧
    (∀ v m, market = some v → metal = some m →
      lookup_multiplier_by_metal (gold_table g) (silver_table s) market metal =
        multiplierSpec v (sortTable (if m = "S/S" then silver_table s else gold_table g)) ∧
      List.Sorted bpLe (sortTable (if m = "S/S" then silver_table s else gold_table g))) := by
  constructor
  · intro h
    cases market with
    | none => cases metal <;> rfl
    | some v =>
      cases metal with
      | none => rfl
      | some m => rcases h with h | h <;> exact Option.noConfusion h
  · intro v m hv hm
    subst hv; subst hm
    constructor
    · show (if m = "S/S" then find_multiplier_above (some v) (sortTable (silver_table s))
        else find_multiplier_above (some v) (sortTable (gold_table g))) = _
      by_cases hms : m = "S/S"
      · simp only [hms, if_true, find_above_eq_spec]
      · simp only [hms, if_false, find_above_eq_spec]
    · by_cases hms : m = "S/S"
      · simp only [hms, if_true]
        exact List.sorted_insertionSort bpLe (silver_table s)
      · simp only [hms, if_false]
        exact List.sorted_insertionSort bpLe (gold_table g)

/-- Witness for C1 on the spec's sample data (silver spot 25, market 25). -/
theorem C1_multiplier_resolution_witness :
    lookup_multiplier_by_metal (gold_table 2000) (silver_table 25) (some 25) (some "S/S") =
      multiplierSpec 25 (sortTable (if "S/S" = "S/S" then silver_table 25 else gold_table 2000)) :=
  ((C1_multiplier_resolution 2000 25 (some 25) (some "S/S")).2 25 "S/S" rfl rfl).1

/-! ## C5: multiplier table structure -/

theorem gold_table_eq (g : ℚ) :
    gold_table g = [(g / 2.1, 2), (g / 1.7, 1.8), (g / 1.5, 1.6), (g / 1.35, 1.4),
      (g / 1.25, 1.3), (g / 1.175, 1.2), (g / 1.1, 1.1), (g / 1.0683, 1.05), (g / 1, 1)] := rfl

theorem silver_table_eq (s : ℚ) :
    silver_table s = [(s / 2.2, 2), (s / 1.5573, 1.6), (s / 1.4615, 1.5), (s / 1.3571, 1.4),
      (s / 1.3073, 1.3), (s / 1.2025, 1.2), (s / 1.1176, 1.1), (s / 1.0555, 1.05), (s / 1, 1)] := rfl

theorem gold_table_pairwise_lt (g : ℚ) (hg : 0 < g) : List.Pairwise bpLt (gold_table g) := by
  rw [gold_table_eq, ← List.chain'_iff_pairwise]
  simp only [List.chain'_cons, List.chain'_singleton, and_true]
  unfold bpLt
  refine ⟨?_, ?_, ?_, ?_, ?_, ?_, ?_, ?_⟩ <;>
    exact div_lt_div_of_pos_left hg (by norm_num) (by norm_num)

theorem silver_table_pairwise_lt (s : ℚ) (hs : 0 < s) : List.Pairwise bpLt (silver_table s) := by
  rw [silver_table_eq, ← List.chain'_iff_pairwise]
  simp only [List.chain'_cons, List.chain'_singleton, and_true]
  unfold bpLt
  refine ⟨?_, ?_, ?_, ?_, ?_, ?_, ?_, ?_⟩ <;>
    exact div_lt_div_of_pos_left hs (by norm_num) (by norm_num)

/-- C5. Multiplier table structure: for every strictly positive spot price,
each generated table has exactly 9 (breakpoint, multiplier) pairs, each
breakpoint is the spot price divided by its fixed divisor constant, the
breakpoints are strictly increasing (so the ascending sort used before lookup
leaves each table unchanged), and the multiplier paired with the highest
breakpoint is exactly 1. -/
theorem C5_table_structure (g s : ℚ) (hg : 0 < g) (hs : 0 < s) :
    (gold_table g).length = 9 ∧ (silver_table s).length = 9 ∧
    gold_table g = [(g / 2.1, 2), (g / 1.7, 1.8), (g / 1.5, 1.6), (g / 1.35, 1.4),
      (g / 1.25, 1.3), (g / 1.175, 1.2), (g / 1.1, 1.1), (g / 1.0683, 1.05), (g / 1, 1)] ∧
    silver_table s = [(s / 2.2, 2), (s / 1.5573, 1.6), (s / 1.4615, 1.5), (s / 1.3571, 1.4),
      (s / 1.3073, 1.3), (s / 1.2025, 1.2), (s / 1.1176, 1.1), (s / 1.0555, 1.05), (s / 1, 1)] ∧
    List.Pairwise bpLt (gold_table g) ∧ List.Pairwise bpLt (silver_table s) ∧
    sortTable (gold_table g) = gold_table g ∧ sortTable (silver_table s) = silver_table s ∧
    (gold_table g).getLast?.map Prod.snd = some 1 ∧
    (silver_table s).getLast?.map Prod.snd = some 1 := by
  have hgp := gold_table_pairwise_lt g hg
  have hsp := silver_table_pairwise_lt s hs
  have hgle : List.Sorted bpLe (gold_table g) :=
    hgp.imp (fun h => le_of_lt h)
  have hsle : List.Sorted bpLe (silver_table s) :=
    hsp.imp (fun h => le_of_lt h)
  exact ⟨rfl, rfl, gold_table_eq g, silver_table_eq s, hgp, hsp,
    hgle.insertionSort_eq, hsle.insertionSort_eq, rfl, rfl⟩

/-- Witness for C5 at gold spot 2000 and silver spot 25. -/
theorem C5_table_structure_witness :
    (0 : ℚ) < 2000 ∧ (0 : ℚ) < 25 ∧
    (gold_table 2000).length = 9 ∧ (silver_table 25).length = 9 ∧
    (gold_table 2000).getLast?.map Prod.snd = some 1 ∧
    (silver_table 25).getLast?.map Prod.snd = some 1 := by
  have h := C5_table_structure 2000 25 (by norm_num) (by norm_num)
  exact ⟨by norm_num, by norm_num, h.1, h.2.1, h.2.2.2.2.2.2.2.2.1, h.2.2.2.2.2.2.2.2.2⟩

/-! ## The propagator's behavior, row by row -/

theorem applyPriceUpdates_spec (D : List (String × ℚ)) :
    ∀ l : List ProdRowN,
      (applyPriceUpdates D l).1.length = l.length ∧
      (applyPriceUpdates D l).2.1 + (applyPriceUpdates D l).2.2.1 +
        (applyPriceUpdates D l).2.2.2 = l.length ∧
      (applyPriceUpdates D l).2.2.1 = l.countP (fun r => normSku r.variantSKU == "") ∧
      (applyPriceUpdates D l).2.1 = l.countP (fun r => !(normSku r.variantSKU == "") &&
        (dictGet? D (normSku r.variantSKU)).isSome) ∧
      (applyPriceUpdates D l).2.2.2 = l.countP (fun r => !(normSku r.variantSKU == "") &&
        !((dictGet? D (normSku r.variantSKU)).isSome)) ∧
      ∀ p ∈ (applyPriceUpdates D l).1.zip l,
        p.1.variantSKU = normSku p.2.variantSKU ∧
        p.1.extra = p.2.extra ∧
        (p.1.variantPrice = p.2.variantPrice ∨
          ∃ q, dictGet? D (normSku p.2.variantSKU) = some q ∧ p.1.variantPrice = some q) := by
  intro l
  induction l with
  | nil => refine ⟨rfl, rfl, rfl, rfl, rfl, ?_⟩; intro p hp; simp [applyPriceUpdates] at hp
  | cons r rs ih =>
    obtain ⟨ih1, ih2, ih3, ih4, ih5, ih6⟩ := ih
    by_cases hsku : normSku r.variantSKU = ""
    · have he : applyPriceUpdates D (r :: rs) =
          (⟨normSku r.variantSKU, r.variantPrice, r.extra⟩ :: (applyPriceUpdates D rs).1,
           (applyPriceUpdates D rs).2.1, (applyPriceUpdates D rs).2.2.1 + 1,
           (applyPriceUpdates D rs).2.2.2) := by
        simp [applyPriceUpdates, hsku]
      rw [he]
      refine ⟨by simp [ih1], by simp; omega, ?_, ?_, ?_, ?_⟩
      · simp [List.countP_cons, hsku, ih3]
      · simp [List.countP_cons, hsku, ih4]
      · simp [List.countP_cons, hsku, ih5]
      · intro p hp
        rcases List.mem_cons.mp hp with hp | hp
        · subst hp; exact ⟨rfl, rfl, Or.inl rfl⟩
        · exact ih6 p hp
    · cases hget : dictGet? D (normSku r.variantSKU) with
      | some q =>
        have he : applyPriceUpdates D (r :: rs) =
            (⟨normSku r.variantSKU, some q, r.extra⟩ :: (applyPriceUpdates D rs).1,
             (applyPriceUpdates D rs).2.1 + 1, (applyPriceUpdates D rs).2.2.1,
             (applyPriceUpdates D rs).2.2.2) := by
          simp [applyPriceUpdates, hsku, hget]
        rw [he]
        refine ⟨by simp [ih1], by simp; omega, ?_, ?_, ?_, ?_⟩
        · simp [List.countP_cons, hsku, ih3]
        · simp [List.countP_cons, hsku, hget, ih4]
        · simp [List.countP_cons, hsku, hget, ih5]
        · intro p hp
          rcases List.mem_cons.mp hp with hp | hp
          · subst hp; exact ⟨rfl, rfl, Or.inr ⟨q, hget, rfl⟩⟩
          · exact ih6 p hp
      | none =>
        have he : applyPriceUpdates D (r :: rs) =
            (⟨normSku r.variantSKU, r.variantPrice, r.extra⟩ :: (applyPriceUpdates D rs).1,
             (applyPriceUpdates D rs).2.1, (applyPriceUpdates D rs).2.2.1,
             (applyPriceUpdates D rs).2.2.2 + 1) := by
          simp [applyPriceUpdates, hsku, hget]
        rw [he]
        refine ⟨by simp [ih1], by simp; omega, ?_, ?_, ?_, ?_⟩
        · simp [List.countP_cons, hsku, ih3]
        · simp [List.countP_cons, hsku, hget, ih4]
        · simp [List.countP_cons, hsku, hget, ih5]
        · intro p hp
          rcases List.mem_cons.mp hp with hp | hp
          · subst hp; exact ⟨rfl, rfl, Or.inl rfl⟩
          · exact ih6 p hp

/-! ## C2: propagation conservation -/

/-- C2. Propagation conservation: the SKU propagator leaves the product row
count unchanged and its three counters partition the product rows — blanks
count the rows whose normalized SKU is empty, successes the rows whose
normalized SKU is a key of the price mapping, no-matches the rest, and the
three sum to the total row count. -/
theorem C2_propagation_conservation (upload : List ProdRowN) (reference : List PropRefRow) :
    (update_variant_price_fixed upload reference).1.length = upload.length ∧
    (update_variant_price_fixed upload reference).2.1 +
      (update_variant_price_fixed upload reference).2.2.1 +
      (update_variant_price_fixed upload reference).2.2.2 = upload.length ∧
    (update_variant_price_fixed upload reference).2.2.1 =
      upload.countP (fun r => normSku r.variantSKU == "") ∧
    (update_variant_price_fixed upload reference).2.1 =
      upload.countP (fun r => !(normSku r.variantSKU == "") &&
        (dictGet? (buildPriceLookup reference) (normSku r.variantSKU)).isSome) ∧
    (update_variant_price_fixed upload reference).2.2.2 =
      upload.countP (fun r => !(normSku r.variantSKU == "") &&
        !((dictGet? (buildPriceLookup reference) (normSku r.variantSKU)).isSome)) := by
  have h := applyPriceUpdates_spec (buildPriceLookup reference) upload
  exact ⟨h.1, h.2.1, h.2.2.1, h.2.2.2.1, h.2.2.2.2.1⟩

/-! ## C7: the propagator's frame -/

/-- C7 counterexample: the propagator also rewrites the `Variant SKU` field —
on a product row whose SKU is `" A "` the returned row carries `"A"`, so not
every field other than `Variant Price` is returned unchanged. -/
theorem C7_counterexample :
    ((update_variant_price_fixed [c7uploadRow] []).1.map (fun r => Cell.str r.variantSKU)) ≠
      [c7uploadRow.variantSKU] := by decide

/-- C7 (amended). Propagator frame: the propagator adds no row and removes no
row; of each product row it leaves every field except `Variant Price` and
`Variant SKU` unchanged, rewrites `Variant SKU` to its stringified,
whitespace-stripped, `'nan'`-cleared form, and overwrites `Variant Price` only
with a price found for that SKU in the mapping, leaving it unchanged
otherwise. -/
theorem C7_frame_amended (upload : List ProdRowN) (reference : List PropRefRow) :
    (update_variant_price_fixed upload reference).1.length = upload.length ∧
    ∀ p ∈ (update_variant_price_fixed upload reference).1.zip upload,
      p.1.extra = p.2.extra ∧
      p.1.variantSKU = normSku p.2.variantSKU ∧
      (p.1.variantPrice = p.2.variantPrice ∨
        ∃ q, dictGet? (buildPriceLookup reference) (normSku p.2.variantSKU) = some q ∧
          p.1.variantPrice = some q) := by
  have h := applyPriceUpdates_spec (buildPriceLookup reference) upload
  exact ⟨h.1, fun p hp => ⟨(h.2.2.2.2.2 p hp).2.1, (h.2.2.2.2.2 p hp).1,
    (h.2.2.2.2.2 p hp).2.2⟩⟩

/-- Witness for C7 (amended) on the one-row sample table. -/
theorem C7_frame_amended_witness :
    (((update_variant_price_fixed [c7uploadRow] []).1.zip [c7uploadRow]).head
        (by decide)).1.extra =
      (((update_variant_price_fixed [c7uploadRow] []).1.zip [c7uploadRow]).head
        (by decide)).2.extra :=
  ((C7_frame_amended [c7uploadRow] []).2 _ (List.head_mem _)).1

/-! ## Sanitizer lemmas -/

theorem removeChar_eq_filter (x : Char) :
    ∀ l : List Char, removeChar x l = l.filter (fun c => !(c == x)) := by
  intro l
  induction l with
  | nil => rfl
  | cons c t ih => by_cases h : c = x <;> simp [removeChar, List.filter_cons, h, ih]

theorem removePairA_of_not_mem :
    ∀ l : List Char, 'Ã' ∉ l → removePairA l = l
  | [], _ => rfl
  | [_], _ => rfl
  | c1 :: c2 :: rest, h => by
    have h1 : c1 ≠ 'Ã' := fun he => h (he ▸ List.mem_cons_self _ _)
    have h2 : ('Ã' : Char) ∉ c2 :: rest := fun hm => h (List.mem_cons_of_mem _ hm)
    have hno : ¬ (c1 = 'Ã' ∧ c2 = '‚') := fun hp => h1 hp.1
    rw [removePairA, if_neg hno, removePairA_of_not_mem (c2 :: rest) h2]

theorem sanitizeChars_eq_filter (l : List Char) :
    sanitizeChars l = l.filter (fun c => !(badChars.contains c)) := by
  unfold sanitizeChars
  rw [removeChar_eq_filter, removeChar_eq_filter, removeChar_eq_filter, removeChar_eq_filter,
    List.filter_filter, List.filter_filter, List.filter_filter]
  rw [removePairA_of_not_mem]
  · refine List.filter_congr ?_
    intro c _
    cases h1 : c == '‚' <;> cases h2 : c == 'ƒ' <;> cases h3 : c == 'Ã' <;>
      cases h4 : c == 'Â' <;> simp_all [badChars]
  · intro hmem
    have := (List.mem_filter.mp hmem).2
    simp at this

theorem sanitizeStr_data (s : String) :
    (sanitizeStr s).data = s.data.filter (fun c => !(badChars.contains c)) :=
  sanitizeChars_eq_filter s.data

theorem not_occursIn_bad_filter (x : Char) (xs : List Char) (hx : x ∈ badChars)
    (l : List Char) :
    ¬ occursIn (x :: xs) (l.filter (fun c => !(badChars.contains c))) := by
  rintro ⟨a, b, hab⟩
  have hmem : x ∈ l.filter (fun c => !(badChars.contains c)) := by
    rw [hab]
    exact List.mem_append.mpr (Or.inl (List.mem_append.mpr (Or.inr (List.mem_cons_self x xs))))
  have hpred := (List.mem_filter.mp hmem).2
  rw [Bool.not_eq_true'] at hpred
  rw [show badChars.contains x = List.elem x badChars from rfl,
    List.elem_eq_true_of_mem hx] at hpred
  exact Bool.noConfusion hpred

theorem sanitizeStr_no_bad (s : String) (pat : List Char) (hp : pat ∈ badPats) :
    ¬ occursIn pat (sanitizeStr s).data := by
  rw [sanitizeStr_data]
  simp only [badPats, List.mem_cons, List.not_mem_nil, or_false] at hp
  rcases hp with rfl | rfl | rfl | rfl | rfl <;>
    exact not_occursIn_bad_filter _ _ (by decide) _

theorem sanitizeCell_ne_na (c : Cell) (h : c ≠ Cell.na) :
    sanitizeCell c = Cell.str (sanitizeStr (pyStr c)) := by
  cases c with
  | na => exact absurd rfl h
  | str s => rfl
  | num q => rfl

theorem applyFlags_str_no_bad (flags : List Bool) :
    ∀ cs : List Cell, cs.length = flags.length →
      (∀ p ∈ cs.zip flags, cellIsStr p.1 = true → p.2 = true) →
      ∀ c ∈ applyFlags flags cs, ∀ t, c = Cell.str t →
        ∀ pat ∈ badPats, ¬ occursIn pat t.data := by
  induction flags with
  | nil =>
    intro cs hlen _ c hc
    have hcs : cs = [] := List.length_eq_zero.mp hlen
    subst hcs
    simp [applyFlags] at hc
  | cons f fs ih =>
    intro cs hlen hzip c hc t hct pat hp
    cases cs with
    | nil => simp [applyFlags] at hc
    | cons c0 cs' =>
      have hlen' : cs'.length = fs.length := by simpa using hlen
      rw [show applyFlags (f :: fs) (c0 :: cs') =
        (if f then sanitizeCell c0 else c0) :: applyFlags fs cs' from rfl] at hc
      rcases List.mem_cons.mp hc with hceq | hmem
      · cases f with
        | false =>
          rw [if_neg (by simp)] at hceq
          have hstr : cellIsStr c0 = true := by
            rw [← hceq, hct]; rfl
          have : (false : Bool) = true :=
            hzip (c0, false) (List.mem_cons_self _ _) hstr
          exact Bool.noConfusion this
        | true =>
          rw [if_pos rfl] at hceq
          cases c0 with
          | na => rw [hct] at hceq; exact Cell.noConfusion hceq
          | str s0 =>
            rw [hct] at hceq
            have ht : t = sanitizeStr (pyStr (Cell.str s0)) := by
              have := hceq.symm
              rw [sanitizeCell_ne_na _ (by intro hx; exact Cell.noConfusion hx)] at this
              exact (Cell.str.inj this).symm
            rw [ht]
            exact sanitizeStr_no_bad _ pat hp
          | num q0 =>
            rw [hct] at hceq
            have ht : t = sanitizeStr (pyStr (Cell.num q0)) := by
              have := hceq.symm
              rw [sanitizeCell_ne_na _ (by intro hx; exact Cell.noConfusion hx)] at this
              exact (Cell.str.inj this).symm
            rw [ht]
            exact sanitizeStr_no_bad _ pat hp
      · exact ih cs' hlen' (fun p hp' => hzip p (List.mem_cons_of_mem _ hp'))
          c hmem t hct pat hp

theorem mem_zip_partner {α β : Type} :
    ∀ (l1 : List α) (l2 : List β), l1.length = l2.length →
      ∀ a ∈ l1, ∃ b ∈ l2, (a, b) ∈ l1.zip l2
  | [], [], _, a, ha => absurd ha (List.not_mem_nil a)
  | [], _ :: _, hlen, _, _ => by simp at hlen
  | _ :: _, [], hlen, _, _ => by simp at hlen
  | x :: xs, y :: ys, hlen, a, ha => by
    rcases List.mem_cons.mp ha with rfl | ha'
    · exact ⟨y, List.mem_cons_self _ _, List.mem_cons_self _ _⟩
    · obtain ⟨b, hb, hm⟩ := mem_zip_partner xs ys (by simpa using hlen) a ha'
      exact ⟨b, List.mem_cons_of_mem _ hb, List.mem_cons_of_mem _ hm⟩

theorem processAt_rows_shape (refRows : List RefRowIn) (upload : ProdTableIn)
    (g s : ℚ) (tN : ℤ) :
    ∀ fr ∈ (processAt refRows upload g s tN).1,
      ∃ r0 ∈ upload.rows,
        fr.variantSKU = sanitizeStr (normSku r0.variantSKU) ∧
        fr.extra = applyFlags upload.extraObj r0.extra := by
  intro fr hfr
  obtain ⟨u, hu, hfu⟩ := List.mem_map.mp hfr
  have hspec := applyPriceUpdates_spec
    (buildPriceLookup ((processReferenceAt refRows g s tN).map
      (fun r => PropRefRow.mk r.stockId (some r.newPrice))))
    (upload.rows.map prepProdRow)
  obtain ⟨b, hb, hzipmem⟩ := mem_zip_partner _ _ hspec.1 u hu
  have hprops := hspec.2.2.2.2.2 (u, b) hzipmem
  obtain ⟨r0, hr0, hbr0⟩ := List.mem_map.mp hb
  refine ⟨r0, hr0, ?_, ?_⟩
  · rw [← hfu]
    show (finalizeRow upload.extraObj u).variantSKU = _
    have : u.variantSKU = normSku b.variantSKU := hprops.1
    rw [show (finalizeRow upload.extraObj u).variantSKU = sanitizeStr u.variantSKU from rfl,
      this, ← hbr0]
    rfl
  · rw [← hfu]
    show (finalizeRow upload.extraObj u).extra = _
    have : u.extra = b.extra := hprops.2.1
    rw [show (finalizeRow upload.extraObj u).extra = applyFlags upload.extraObj u.extra from rfl,
      this, ← hbr0]
    rfl

/-! ## C8: output sanitization -/

/-- C8. Output sanitization: for every input product table (each text cell
sitting in an `object`-dtype column, tables being rectangular), no denylisted
mojibake substring occurs in the `Variant SKU` or in any text cell of the
final output rows; the sanitizer only deletes the four denylisted characters,
leaving every other character untouched; and a missing value passes through
the sanitizer unchanged, not coerced to a string. -/
theorem C8_output_sanitization (refRows : List RefRowIn) (upload : ProdTableIn)
    (g s : ℚ) (now : ℤ)
    (hrect : ∀ row ∈ upload.rows, row.extra.length = upload.extraObj.length)
    (hobj : ∀ row ∈ upload.rows, ∀ p ∈ row.extra.zip upload.extraObj,
      cellIsStr p.1 = true → p.2 = true) :
    (∀ fr ∈ (process_precious_metals_data refRows upload g s now).1,
      (∀ pat ∈ badPats, ¬ occursIn pat fr.variantSKU.data) ∧
      ∀ c ∈ fr.extra, ∀ t, c = Cell.str t → ∀ pat ∈ badPats, ¬ occursIn pat t.data) ∧
    (∀ s0 : String, (sanitizeStr s0).data = s0.data.filter (fun c => !(badChars.contains c))) ∧
    sanitizeCell Cell.na = Cell.na := by
  refine ⟨?_, sanitizeStr_data, rfl⟩
  intro fr hfr
  obtain ⟨r0, hr0, hsku, hextra⟩ :=
    processAt_rows_shape refRows upload g s (normalizeTs now) fr hfr
  constructor
  · rw [hsku]
    exact fun pat hp => sanitizeStr_no_bad _ pat hp
  · rw [hextra]
    exact applyFlags_str_no_bad upload.extraObj r0.extra (hrect r0 hr0) (hobj r0 hr0)

/-- Witness for C8 on a one-row table carrying mojibake characters. -/
theorem C8_output_sanitization_witness :
    ¬ occursIn ['Ã'] (((process_precious_metals_data [] c8upload 1 1 0).1.head
      (by decide)).variantSKU).data :=
  ((C8_output_sanitization [] c8upload 1 1 0 (by decide) (by decide)).1 _
    (List.head_mem _)).1 ['Ã'] (by decide)

/-! ## C10: the sanitizer stringifies object columns -/

theorem applyFlags_zip_mem (flags : List Bool) :
    ∀ cs : List Cell, cs.length = flags.length →
      ∀ p ∈ (applyFlags flags cs).zip (cs.zip flags),
        p.1 = (if p.2.2 then sanitizeCell p.2.1 else p.2.1) := by
  induction flags with
  | nil =>
    intro cs hlen p hp
    have hcs : cs = [] := List.length_eq_zero.mp hlen
    subst hcs
    simp [applyFlags] at hp
  | cons f fs ih =>
    intro cs hlen p hp
    cases cs with
    | nil => simp at hlen
    | cons c0 cs' =>
      rw [show applyFlags (f :: fs) (c0 :: cs') =
        (if f then sanitizeCell c0 else c0) :: applyFlags fs cs' from rfl,
        show (c0 :: cs').zip (f :: fs) = (c0, f) :: cs'.zip fs from rfl] at hp
      rcases List.mem_cons.mp hp with rfl | hp'
      · rfl
      · exact ih cs' (by simpa using hlen) p hp'

/-- C10. Sanitizer stringifies text columns: in every `object`-flagged column
position, the sanitizing pass replaces each non-missing cell by the string of
its `str(·)` rendering with the denylisted sequences removed — so every
non-missing value at such a position becomes a text cell, even when the input
held a number — while missing cells stay missing and unflagged columns are
untouched; the pipeline applies exactly this pass to every final row's
carried columns. -/
theorem C10_sanitizer_stringifies (flags : List Bool) (cs : List Cell)
    (hlen : cs.length = flags.length) :
    (∀ p ∈ (applyFlags flags cs).zip (cs.zip flags),
      (p.2.2 = true → p.1 = sanitizeCell p.2.1) ∧
      (p.2.2 = true → p.2.1 = Cell.na → p.1 = Cell.na) ∧
      (p.2.2 = true → p.2.1 ≠ Cell.na → p.1 = Cell.str (sanitizeStr (pyStr p.2.1))) ∧
      (p.2.2 = true → p.1 = Cell.na ∨ ∃ t, p.1 = Cell.str t) ∧
      (p.2.2 = false → p.1 = p.2.1)) ∧
    (∀ refRows upload g' s' now, ∀ fr ∈ (process_precious_metals_data refRows upload g' s' now).1,
      ∃ r0 ∈ upload.rows, fr.extra = applyFlags upload.extraObj r0.extra) := by
  constructor
  · intro p hp
    have hval := applyFlags_zip_mem flags cs hlen p hp
    refine ⟨?_, ?_, ?_, ?_, ?_⟩
    · intro ht; rw [hval, if_pos ht]
    · intro ht hna; rw [hval, if_pos ht, hna]; rfl
    · intro ht hna; rw [hval, if_pos ht]; exact sanitizeCell_ne_na _ hna
    · intro ht
      rw [hval, if_pos ht]
      cases h0 : p.2.1 with
      | na => exact Or.inl rfl
      | str s0 => exact Or.inr ⟨_, rfl⟩
      | num q0 => exact Or.inr ⟨_, rfl⟩
    · intro ht; rw [hval, ht]; rfl
  · intro refRows upload g' s' now fr hfr
    obtain ⟨r0, hr0, _, hextra⟩ :=
      processAt_rows_shape refRows upload g' s' (normalizeTs now) fr hfr
    exact ⟨r0, hr0, hextra⟩

/-- Witness for C10 on a one-cell object column. -/
theorem C10_sanitizer_stringifies_witness :
    (((applyFlags [true] [Cell.str "x"]).zip ([Cell.str "x"].zip [true])).head
        (by decide)).1 =
      sanitizeCell (((applyFlags [true] [Cell.str "x"]).zip
        ([Cell.str "x"].zip [true])).head (by decide)).2.1 :=
  (((C10_sanitizer_stringifies [true] [Cell.str "x"] (by decide)).1 _
    (List.head_mem _)).1 (by decide))

/-! ## Deduplication lemmas -/

theorem dropDupByKey_subset {α : Type} (key : α → String) :
    ∀ (l : List α) (seen : List String), ∀ x ∈ dropDupByKey key l seen, x ∈ l
  | [], _, x, hx => absurd hx (List.not_mem_nil x)
  | y :: ys, seen, x, hx => by
    by_cases h : key y ∈ seen
    · rw [show dropDupByKey key (y :: ys) seen = dropDupByKey key ys seen from by
        simp [dropDupByKey, h]] at hx
      exact List.mem_cons_of_mem _ (dropDupByKey_subset key ys seen x hx)
    · rw [show dropDupByKey key (y :: ys) seen =
          y :: dropDupByKey key ys (key y :: seen) from by
        simp [dropDupByKey, h]] at hx
      rcases List.mem_cons.mp hx with rfl | hx'
      · exact List.mem_cons_self _ _
      · exact List.mem_cons_of_mem _ (dropDupByKey_subset key ys (key y :: seen) x hx')

theorem dropDupByKey_first {α : Type} (key : α → String) (R : α → α → Prop) :
    ∀ (l : List α) (seen : List String), l.Pairwise R →
      ∀ x ∈ dropDupByKey key l seen,
        key x ∉ seen ∧ ∀ y ∈ l, key y = key x → x = y ∨ R x y
  | [], _, _, x, hx => absurd hx (List.not_mem_nil x)
  | z :: zs, seen, hpw, x, hx => by
    obtain ⟨hz, hzs⟩ := List.pairwise_cons.mp hpw
    by_cases h : key z ∈ seen
    · rw [show dropDupByKey key (z :: zs) seen = dropDupByKey key zs seen from by
        simp [dropDupByKey, h]] at hx
      obtain ⟨hns, hall⟩ := dropDupByKey_first key R zs seen hzs x hx
      refine ⟨hns, ?_⟩
      intro y hy hky
      rcases List.mem_cons.mp hy with rfl | hy'
      · exact absurd (hky ▸ h) hns
      · exact hall y hy' hky
    · rw [show dropDupByKey key (z :: zs) seen =
          z :: dropDupByKey key zs (key z :: seen) from by
        simp [dropDupByKey, h]] at hx
      rcases List.mem_cons.mp hx with rfl | hx'
      · refine ⟨h, ?_⟩
        intro y hy _
        rcases List.mem_cons.mp hy with rfl | hy'
        · exact Or.inl rfl
        · exact Or.inr (hz y hy')
      · obtain ⟨hns, hall⟩ := dropDupByKey_first key R zs (key z :: seen) hzs x hx'
        have hkxz : key x ≠ key z := fun he => hns (he ▸ List.mem_cons_self _ _)
        refine ⟨fun hmem => hns (List.mem_cons_of_mem _ hmem), ?_⟩
        intro y hy hky
        rcases List.mem_cons.mp hy with rfl | hy'
        · exact absurd hky (fun he => hkxz he.symm)
        · exact hall y hy' hky

theorem dropDupByKey_nodup {α : Type} (key : α → String) :
    ∀ (l : List α) (seen : List String),
      ((dropDupByKey key l seen).map key).Nodup ∧
      ∀ k ∈ (dropDupByKey key l seen).map key, k ∉ seen
  | [], _ => ⟨List.nodup_nil, by intro k hk; simp [dropDupByKey] at hk⟩
  | z :: zs, seen => by
    by_cases h : key z ∈ seen
    · rw [show dropDupByKey key (z :: zs) seen = dropDupByKey key zs seen from by
        simp [dropDupByKey, h]]
      exact dropDupByKey_nodup key zs seen
    · rw [show dropDupByKey key (z :: zs) seen =
          z :: dropDupByKey key zs (key z :: seen) from by
        simp [dropDupByKey, h]]
      obtain ⟨hnd, hnin⟩ := dropDupByKey_nodup key zs (key z :: seen)
      constructor
      · rw [List.map_cons, List.nodup_cons]
        exact ⟨fun hmem => (hnin _ hmem) (List.mem_cons_self _ _), hnd⟩
      · intro k hk
        rw [List.map_cons] at hk
        rcases List.mem_cons.mp hk with rfl | hk'
        · exact h
        · exact fun hks => (hnin _ hk') (List.mem_cons_of_mem _ hks)

theorem refCleanedAt_pairwise (rows : List RefRowIn) (tN : ℤ) :
    (refCleanedAt rows tN).Pairwise (fun a b => dateDescLe a.maxDate b.maxDate) := by
  have h1 : (refSorted rows).Pairwise rowLe := List.sorted_insertionSort rowLe _
  have h2 : (refFilteredAt rows tN).Pairwise rowLe := h1.filter _
  exact h2.map _ (fun a b hab => hab)

theorem refCleanedAt_maxDate (rows : List RefRowIn) (tN : ℤ) :
    ∀ r ∈ refCleanedAt rows tN, ∃ d, r.maxDate = some d ∧ d ≤ tN := by
  intro r hr
  obtain ⟨p, hp, hpr⟩ := List.mem_map.mp hr
  have hf := (List.mem_filter.mp hp).2
  cases hd : p.2 with
  | none => rw [hd] at hf; exact Bool.noConfusion hf
  | some d =>
    rw [hd] at hf
    refine ⟨d, ?_, of_decide_eq_true hf⟩
    rw [← hpr]
    show p.2 = some d
    exact hd

/-! ## C4: deduplication invariant -/

/-- C4. Dedup invariant: after normalization the (whitespace-stripped)
`Stock ID` values are pairwise distinct, and each kept row has the greatest
`Max Date` among the normalized (filtered, cleaned) rows sharing its
`Stock ID` — deduplication keeps the first row in the recency-descending
order. -/
theorem C4_dedup_invariant (rows : List RefRowIn) (todayN : ℤ) :
    ((refDedupedAt rows todayN).map (fun r => r.stockId)).Nodup ∧
    ∀ r ∈ refDedupedAt rows todayN,
      r ∈ refCleanedAt rows todayN ∧
      ∀ r' ∈ refCleanedAt rows todayN, r'.stockId = r.stockId →
        ∀ d', r'.maxDate = some d' → ∃ d, r.maxDate = some d ∧ d' ≤ d := by
  constructor
  · exact (dropDupByKey_nodup _ (refCleanedAt rows todayN) []).1
  · intro r hr
    refine ⟨dropDupByKey_subset _ (refCleanedAt rows todayN) [] r hr, ?_⟩
    intro r' hr' hkey d' hd'
    have hrd : r ∈ dropDupByKey (fun q : RefRowMid => q.stockId)
        (refCleanedAt rows todayN) [] := hr
    have hfirst := (dropDupByKey_first (fun q : RefRowMid => q.stockId)
      (fun a b => dateDescLe a.maxDate b.maxDate)
      (refCleanedAt rows todayN) [] (refCleanedAt_pairwise rows todayN) r hrd).2
    rcases hfirst r' hr' hkey with rfl | hrel
    · exact ⟨d', hd', le_refl d'⟩
    · cases hd : r.maxDate with
      | none =>
        rw [hd, hd'] at hrel
        exact hrel.elim
      | some d =>
        rw [hd, hd'] at hrel
        exact ⟨d, rfl, hrel⟩

/-- Witness for C4 on two rows sharing `Stock ID` `"A"`, dated day 2 and
day 1, processed on day 10. -/
theorem C4_dedup_invariant_witness :
    ((refDedupedAt c4rows 14400).map (fun r => r.stockId)).Nodup ∧
    ∃ d, ((refDedupedAt c4rows 14400).head (by decide)).maxDate = some d ∧ 1440 ≤ d := by
  refine ⟨(C4_dedup_invariant c4rows 14400).1, ?_⟩
  exact ((C4_dedup_invariant c4rows 14400).2 _ (List.head_mem _)).2
    ((refCleanedAt c4rows 14400).get ⟨1, by decide⟩) (List.get_mem _ 1 (by decide))
    (by decide) 1440 (by decide)

/-! ## C3: the future-date filter -/

theorem dateLeB_iff (d : Option ℤ) (t : ℤ) :
    dateLeB d t = true ↔ ∃ x, d = some x ∧ x ≤ t := by
  cases d with
  | none => simp [dateLeB]
  | some x => simp [dateLeB]

/-- C3 counterexample: a row whose `Max Date` (minute 500 of day 0) is on or
before the processing moment (minute 1000 of day 0) is nevertheless excluded
from the normalized reference entirely, because the code compares against
`pd.Timestamp.today().normalize()`, midnight of the processing day, not the
processing moment itself. -/
theorem C3_counterexample :
    maxDate3 c3row = some 500 ∧ ((500 : ℤ) ≤ 1000) ∧
    refFiltered [c3row] 1000 = [] ∧ processReference [c3row] 1 1 1000 = [] :=
  ⟨by decide, by decide, by decide, by decide⟩

/-- C3 (amended). Future-date filter: the reference filter keeps exactly the
rows whose derived `Max Date` is present and on or before midnight of the
processing day (`today` normalized); every row with a missing or later
`Max Date` is excluded, and every row surviving normalization — hence every
row contributing to the price lookup mapping — has a `Max Date` on or before
that midnight. -/
theorem C3_future_filter_amended (rows : List RefRowIn) (now : ℤ) :
    (∀ p, p ∈ refFiltered rows now ↔
      p ∈ refSorted rows ∧ ∃ d, p.2 = some d ∧ d ≤ normalizeTs now) ∧
    (∀ g s r, r ∈ processReference rows g s now →
      ∃ d, r.maxDate = some d ∧ d ≤ normalizeTs now) := by
  constructor
  · intro p
    rw [show refFiltered rows now =
      (refSorted rows).filter (fun q => dateLeB q.2 (normalizeTs now)) from rfl]
    rw [List.mem_filter]
    exact and_congr_right (fun _ => dateLeB_iff p.2 (normalizeTs now))
  · intro g s r hr
    obtain ⟨mid, hmid, hpr⟩ := List.mem_map.mp hr
    obtain ⟨d, hd, hdt⟩ := refCleanedAt_maxDate rows (normalizeTs now) mid
      (dropDupByKey_subset _ _ _ mid hmid)
    refine ⟨d, ?_, hdt⟩
    rw [← hpr]
    show mid.maxDate = some d
    exact hd

/-- Witness for C3 (amended): the day-1 row survives processing on day 10. -/
theorem C3_future_filter_amended_witness :
    ∃ d, ((processReference c6rows 1 1 14400).head (by decide)).maxDate = some d ∧
      d ≤ normalizeTs 14400 :=
  (C3_future_filter_amended c6rows 14400).2 1 1 _ (List.head_mem _)

/-! ## C6: price calculation and rounding -/

theorem round2_mul_100_den (x : ℚ) : (round2 x * 100).den = 1 := by
  unfold round2
  rw [div_mul_cancel₀]
  · exact Rat.den_intCast _
  · norm_num

/-- C6. Price calculation: every normalized reference row's `New Price` is
`Price Per Unit` times the resolved multiplier — a missing multiplier being
replaced by `1.0` first — rounded (ties to even) to exactly two decimal
places; consequently every `New Price`, and every non-missing `Variant Price`
of the final output, is an exact multiple of a hundredth. -/
theorem C6_price_calculation (rows : List RefRowIn) (g s : ℚ) (now : ℤ) :
    (∀ r ∈ processReference rows g s now,
      r.newPrice = round2 (r.pricePerUnit * r.multiplier.getD 1)) ∧
    (∀ r ∈ processReference rows g s now, (r.newPrice * 100).den = 1) ∧
    (∀ refRows upload g' s' now',
      ∀ pr ∈ (process_precious_metals_data refRows upload g' s' now').1,
        ∀ q, pr.variantPrice = some q → (q * 100).den = 1) := by
  have hmain : ∀ r ∈ processReference rows g s now,
      r.newPrice = round2 (r.pricePerUnit * r.multiplier.getD 1) := by
    intro r hr
    obtain ⟨mid, _, hpr⟩ := List.mem_map.mp hr
    rw [← hpr]
    rfl
  refine ⟨hmain, ?_, ?_⟩
  · intro r hr
    rw [hmain r hr]
    exact round2_mul_100_den _
  · intro refRows upload g' s' now' pr hpr q hq
    obtain ⟨u, _, hu⟩ := List.mem_map.mp hpr
    rw [← hu] at hq
    have hq' : u.variantPrice.map round2 = some q := hq
    cases hv : u.variantPrice with
    | none => rw [hv] at hq'; exact Option.noConfusion hq'
    | some p0 =>
      rw [hv] at hq'
      rw [← Option.some.inj hq']
      exact round2_mul_100_den p0

/-- Witness for C6 on the one-row day-1 reference, processed on day 10. -/
theorem C6_price_calculation_witness :
    ((processReference c6rows 1 1 14400).head (by decide)).newPrice =
      round2 (((processReference c6rows 1 1 14400).head (by decide)).pricePerUnit *
        ((processReference c6rows 1 1 14400).head (by decide)).multiplier.getD 1) :=
  (C6_price_calculation c6rows 1 1 14400).1 _ (List.head_mem _)

/-! ## C9: purity and the processing date -/

/-- C9 counterexample: with the four inputs fixed, running the pipeline on
day 5 and on day 15 yields different outputs — the day-10 reference row is
future-dated for the first run and effective for the second — so the result
is not a function of the two tables and two spot prices alone. -/
theorem C9_counterexample :
    process_precious_metals_data c9ref c9upload 1 1 7200 ≠
      process_precious_metals_data c9ref c9upload 1 1 21600 := by
  intro h
  have h1 : (process_precious_metals_data c9ref c9upload 1 1 7200).2.successful_updates
      = 0 := by decide
  have h2 : (process_precious_metals_data c9ref c9upload 1 1 21600).2.successful_updates
      = 1 := by decide
  rw [h] at h1
  rw [h1] at h2
  exact absurd h2 (by decide)

/-- C9 (amended). Purity: the pipeline is a pure function of its four inputs
and the processing day — the current time enters only through the normalized
`today`, so two invocations with identical reference rows, product table,
gold price and silver price whose processing moments normalize to the same
midnight produce identical outputs and statistics. -/
theorem C9_purity_amended (refRows : List RefRowIn) (upload : ProdTableIn)
    (g s : ℚ) (n1 n2 : ℤ) (h : normalizeTs n1 = normalizeTs n2) :
    process_precious_metals_data refRows upload g s n1 =
      process_precious_metals_data refRows upload g s n2 := by
  unfold process_precious_metals_data
  rw [h]

/-- Witness for C9 (amended): minutes 100 and 200 of day 0 normalize alike. -/
theorem C9_purity_amended_witness :
    process_precious_metals_data c9ref c9upload 1 1 100 =
      process_precious_metals_data c9ref c9upload 1 1 200 :=
  C9_purity_amended c9ref c9upload 1 1 100 200 (by decide)

end App

